import Mathlib

/-!
# Verification of the WHATSAPP-PERSISTENT campaign dispatch pipeline

A shallow embedding, in Lean 4, of the campaign dispatch pipeline of the
WHATSAPP-PERSISTENT repository:

* contact ingestion and deduplication (`CampaignService.uploadContacts`),
* multi-source placeholder personalization (the inline personalization code
  of `CampaignService.sendBulkMessages`, which builds JavaScript `RegExp`
  patterns from raw keys),
* the sequential dispatch loop (`CampaignService.sendBulkMessages`),
* the on-demand variation generator of the Supabase edge function
  (`bulk-message-generator/index.ts`),
* the database retry utility (`dbRetry.ts`).

JavaScript strings are modelled as `List Char`, JavaScript scalar values as
`JSValue`, collaborator calls (transport sends, database writes, the rewrite
service, `Math.random`) as explicit per-iteration oracle records, so that one
full dispatch run is a deterministic function of its inputs and oracles.
-/

namespace WAPersist

/-- JavaScript strings are modelled as lists of characters. -/
abbrev Str := List Char

/-- Characters of a Lean string literal, as a `Str`. -/
def str (s : String) : Str := s.data

/-- `phone.replace(/\D/g, '')`: the canonical form of a phone number keeps
exactly the decimal digits.  Used by `uploadContacts` deduplication and by
every blocklist method of the storage layer. -/
def cleanPhone (p : Str) : Str := p.filter Char.isDigit

/-- The JavaScript scalar values that occur in recipient `extra` bags and
campaign `fixedParams` bags (spec §3 / design note on typed bags). -/
inductive JSValue
  | vStr (s : Str)
  | vInt (n : Int)
  | vBool (b : Bool)
deriving DecidableEq, Repr

/-- `String(value)` for the scalar values of `JSValue`. -/
def jsString : JSValue → Str
  | .vStr s => s
  | .vInt n => (toString n).data
  | .vBool b => if b then str "true" else str "false"

/-- One uploaded contact row (`ContactRow` in `CampaignService`). -/
structure ContactRow where
  name : Str
  phone : Str
  extra : List (Str × JSValue)
deriving DecidableEq, Repr

/-! ## Contact ingestion (`CampaignService.uploadContacts`)

The source walks the uploaded rows in order keeping a `Set` of already seen
canonical phones; a row whose canonical phone was already seen is dropped,
otherwise it is kept and its canonical phone recorded.  The deduplicated rows
are inserted and the campaign's `totalContacts` is set to their number. -/

/-- The deduplication loop of `uploadContacts`: `seen` is the set of canonical
phones already encountered (the `seenPhones` set of the source). -/
def dedupByPhone : List ContactRow → List Str → List ContactRow
  | [], _ => []
  | c :: rest, seen =>
    if cleanPhone c.phone ∈ seen then dedupByPhone rest seen
    else c :: dedupByPhone rest (cleanPhone c.phone :: seen)

/-- Result of `uploadContacts`: the rows actually inserted, the stored count
(also written into the campaign's `totalContacts`), and the confirmation
sample (`insertedContacts.slice(0, 5)`). -/
structure UploadResult where
  stored : List ContactRow
  total : Nat
  sample : List ContactRow
deriving DecidableEq, Repr

/-- `CampaignService.uploadContacts`, after the campaign-exists check. -/
def uploadContacts (contacts : List ContactRow) : UploadResult :=
  let uniq := dedupByPhone contacts []
  { stored := uniq, total := uniq.length, sample := uniq.take 5 }

/-- Members of the deduplicated list never carry a canonical phone that was
already in the `seen` set. -/
theorem dedupByPhone_not_seen {d : ContactRow} :
    ∀ (cs : List ContactRow) (seen : List Str),
      d ∈ dedupByPhone cs seen → cleanPhone d.phone ∉ seen := by
  intro cs
  induction cs with
  | nil => intro seen h; simp [dedupByPhone] at h
  | cons c rest ih =>
    intro seen h
    by_cases hs : cleanPhone c.phone ∈ seen
    · rw [dedupByPhone, if_pos hs] at h
      exact ih seen h
    · rw [dedupByPhone, if_neg hs] at h
      rcases List.mem_cons.mp h with h | h
      · subst h; exact hs
      · intro hd
        exact ih _ h (by simp [hd])

/-- First occurrence wins: every stored row is the first uploaded row bearing
its canonical phone. -/
theorem dedupByPhone_first {d : ContactRow} :
    ∀ (cs : List ContactRow) (seen : List Str), d ∈ dedupByPhone cs seen →
      cs.find? (fun c => cleanPhone c.phone == cleanPhone d.phone) = some d := by
  intro cs
  induction cs with
  | nil => intro seen h; simp [dedupByPhone] at h
  | cons c rest ih =>
    intro seen h
    by_cases hs : cleanPhone c.phone ∈ seen
    · rw [dedupByPhone, if_pos hs] at h
      have hd := dedupByPhone_not_seen rest seen h
      have hne : (cleanPhone c.phone == cleanPhone d.phone) = false := by
        simp only [beq_eq_false_iff_ne, ne_eq]
        intro he; rw [he] at hs; exact hd hs
      rw [List.find?_cons, hne]
      exact ih seen h
    · rw [dedupByPhone, if_neg hs] at h
      rcases List.mem_cons.mp h with h | h
      · subst h
        rw [List.find?_cons, beq_self_eq_true]
      · have hd := dedupByPhone_not_seen rest _ h
        have hne : (cleanPhone c.phone == cleanPhone d.phone) = false := by
          simp only [beq_eq_false_iff_ne, ne_eq]
          intro he; rw [he] at hd; simp at hd
        rw [List.find?_cons, hne]
        exact ih _ h

/-- The canonical phones of the deduplicated rows are exactly the canonical
phones of the input rows that are not in `seen`. -/
theorem dedupByPhone_mem_iff (p : Str) :
    ∀ (cs : List ContactRow) (seen : List Str),
      (p ∈ (dedupByPhone cs seen).map (fun c => cleanPhone c.phone)) ↔
        (p ∈ cs.map (fun c => cleanPhone c.phone) ∧ p ∉ seen) := by
  intro cs
  induction cs with
  | nil => intro seen; simp [dedupByPhone]
  | cons c rest ih =>
    intro seen
    by_cases hs : cleanPhone c.phone ∈ seen
    · rw [dedupByPhone, if_pos hs]
      rw [ih]
      simp only [List.map_cons, List.mem_cons]
      constructor
      · rintro ⟨h1, h2⟩; exact ⟨Or.inr h1, h2⟩
      · rintro ⟨h1 | h1, h2⟩
        · exact absurd (h1 ▸ hs) h2
        · exact ⟨h1, h2⟩
    · rw [dedupByPhone, if_neg hs]
      simp only [List.map_cons, List.mem_cons, ih]
      constructor
      · rintro (h | ⟨h1, h2⟩)
        · refine ⟨Or.inl h, ?_⟩; rw [h]; exact hs
        · exact ⟨Or.inr h1, fun hp => h2 (by simp [hp])⟩
      · rintro ⟨h1 | h1, h2⟩
        · exact Or.inl h1
        · by_cases hpc : p = cleanPhone c.phone
          · exact Or.inl hpc
          · exact Or.inr ⟨h1, by simp [h2, hpc]⟩

/-- The deduplicated rows carry pairwise distinct canonical phones. -/
theorem dedupByPhone_nodup :
    ∀ (cs : List ContactRow) (seen : List Str),
      ((dedupByPhone cs seen).map (fun c => cleanPhone c.phone)).Nodup := by
  intro cs
  induction cs with
  | nil => intro seen; simp [dedupByPhone]
  | cons c rest ih =>
    intro seen
    by_cases hs : cleanPhone c.phone ∈ seen
    · rw [dedupByPhone, if_pos hs]; exact ih seen
    · rw [dedupByPhone, if_neg hs]
      simp only [List.map_cons, List.nodup_cons]
      refine ⟨?_, ih _⟩
      intro hmem
      simp only [List.mem_map] at hmem
      obtain ⟨d, hd, he⟩ := hmem
      have := dedupByPhone_not_seen rest _ hd
      rw [he] at this
      simp at this

/-- C5: for every ordered sequence of contact rows ingested for a campaign,
rows are deduplicated by canonical phone (all non-digit characters stripped)
with the first occurrence winning and later duplicates dropped; the stored
recipient count equals the number of distinct canonical phones (the stored
rows carry pairwise-distinct canonical phones covering exactly the canonical
phones of the upload), and the campaign's total-recipient count (`total`,
written into `campaigns.totalContacts`) equals that stored count.  In
particular, uploading `[(A, "9190000001"), (B, "9190000001"),
(C, "9190000002")]` yields exactly 2 stored recipients, the first named A. -/
theorem uploadContacts_dedups_by_canonical_phone (contacts : List ContactRow) :
    (uploadContacts contacts).total = (uploadContacts contacts).stored.length
  ∧ (((uploadContacts contacts).stored.map (fun c => cleanPhone c.phone)).Nodup
      ∧ ∀ p, p ∈ (uploadContacts contacts).stored.map (fun c => cleanPhone c.phone) ↔
          p ∈ contacts.map (fun c => cleanPhone c.phone))
  ∧ (∀ d ∈ (uploadContacts contacts).stored,
        contacts.find? (fun c => cleanPhone c.phone == cleanPhone d.phone) = some d)
  ∧ uploadContacts [⟨str "A", str "9190000001", []⟩, ⟨str "B", str "9190000001", []⟩,
        ⟨str "C", str "9190000002", []⟩]
      = { stored := [⟨str "A", str "9190000001", []⟩, ⟨str "C", str "9190000002", []⟩],
          total := 2,
          sample := [⟨str "A", str "9190000001", []⟩, ⟨str "C", str "9190000002", []⟩] } := by
  refine ⟨rfl, ⟨dedupByPhone_nodup contacts [], ?_⟩, ?_, by decide⟩
  · intro p
    rw [show (uploadContacts contacts).stored = dedupByPhone contacts [] from rfl,
      dedupByPhone_mem_iff]
    simp
  · intro d hd
    exact dedupByPhone_first contacts [] hd

/-! ## Personalization (`sendBulkMessages`, placeholder substitution)

The source substitutes `{{name}}` and `{{phone}}` with regex literals, then
for every key of `contact.extra` and every key of `campaign.fixedParams`
builds `new RegExp("\\{\\{" + key + "\\}\\}", 'g')` from the *raw* key and
calls `String.prototype.replace` with the *raw* stringified value.  We model
JavaScript global `replace` including its `$`-replacement patterns
(`$$`, `$&`, the backquote and quote forms), and classify each raw key:
a metacharacter-free key behaves literally; a key making the pattern source
an invalid regular expression (e.g. an unbalanced group) makes `RegExp`
throw; remaining keys (valid but non-literal regexes, e.g. `.`) are outside
the model and poison the result with `unmodeled` — no theorem relies on
them. -/

def lbrace : Char := Char.ofNat 123
def rbrace : Char := Char.ofNat 125
def dollarChar : Char := Char.ofNat 36
def backquoteChar : Char := Char.ofNat 96
def singleQuoteChar : Char := Char.ofNat 39
def backslashChar : Char := Char.ofNat 92

/-- JavaScript `GetSubstitution` for a string replacement argument, for a
pattern with no capture groups: `$$` yields `$`, `$&` the matched substring,
backquote form the part of the subject before the match, quote form the part
after; every other `$` sequence is literal. -/
def expandRepl (before matched after : Str) : Str → Str
  | [] => []
  | [c] => [c]
  | c :: d :: rest =>
    if c = dollarChar then
      if d = dollarChar then dollarChar :: expandRepl before matched after rest
      else if d = '&' then matched ++ expandRepl before matched after rest
      else if d = backquoteChar then before ++ expandRepl before matched after rest
      else if d = singleQuoteChar then after ++ expandRepl before matched after rest
      else c :: expandRepl before matched after (d :: rest)
    else c :: expandRepl before matched after (d :: rest)

/-- `s.replace(re, repl)` for a global regex matching the literal string
`p :: pt`, with JavaScript `$`-semantics in `repl`.  `consumedRev` is the
reversed prefix of the original subject already consumed (for the backquote
replacement pattern); `skip > 0` means we are inside an already-replaced
match and must consume characters without re-matching, as JavaScript resumes
the search after the end of each match. -/
def replGoS (p : Char) (pt repl : Str) : Str → Nat → Str → Str
  | _, _, [] => []
  | consumedRev, k + 1, c :: rest => replGoS p pt repl (c :: consumedRev) k rest
  | consumedRev, 0, c :: rest =>
    if (p :: pt).isPrefixOf (c :: rest) then
      expandRepl consumedRev.reverse (p :: pt) ((c :: rest).drop (p :: pt).length) repl
        ++ replGoS p pt repl (c :: consumedRev) pt.length rest
    else c :: replGoS p pt repl (c :: consumedRev) 0 rest

/-- JavaScript `s.replace(new RegExp(escapedLiteral(pat), 'g'), repl)`. -/
def jsReplaceAll (pat repl s : Str) : Str :=
  match pat with
  | [] => s
  | p :: pt => replGoS p pt repl [] 0 s

/-- Plain literal global replacement (no `$`-patterns): the substitution the
spec's words describe. -/
def litGoS (p : Char) (pt repl : Str) : Nat → Str → Str
  | _, [] => []
  | k + 1, _ :: rest => litGoS p pt repl k rest
  | 0, c :: rest =>
    if (p :: pt).isPrefixOf (c :: rest) then repl ++ litGoS p pt repl pt.length rest
    else c :: litGoS p pt repl 0 rest

/-- Literal global replacement of `pat` by `repl`, spec-level. -/
def litReplaceAll (pat repl s : Str) : Str :=
  match pat with
  | [] => s
  | p :: pt => litGoS p pt repl 0 s

/-- The regular-expression metacharacters: a key containing none of these is
matched literally by the constructed pattern. -/
def regexMeta : List Char :=
  [backslashChar, '^', dollarChar, '.', '*', '+', '?', '(', ')', '[', ']',
    lbrace, rbrace, '|']

/-- A key that the constructed `RegExp` treats as a literal string. -/
def literalKey (k : Str) : Bool := k.all (fun c => ! regexMeta.contains c)

/-- Structural validity scan of a key interpreted as a regex fragment:
tracks unescaped group depth, character-class state, and a pending escape.
A dangling backslash, an unbalanced `(`/`)`, or an unterminated class makes
`new RegExp("\\{\\{" + key + "\\}\\}")` throw a `SyntaxError`. -/
def fragScan : Str → Nat → Bool → Bool → Bool
  | [], depth, inClass, esc => ! esc && (decide (depth = 0) && ! inClass)
  | c :: rest, depth, inClass, esc =>
    if esc then fragScan rest depth inClass false
    else if c = backslashChar then fragScan rest depth inClass true
    else if inClass then
      (if c = ']' then fragScan rest depth false false
       else fragScan rest depth true false)
    else if c = '[' then fragScan rest depth true false
    else if c = '(' then fragScan rest (depth + 1) false false
    else if c = ')' then
      (if depth = 0 then false else fragScan rest (depth - 1) false false)
    else fragScan rest depth false false

/-- `new RegExp("\\{\\{" + key + "\\}\\}", 'g')` does not throw.  (The two
escaped brace pairs surrounding the key never change group or class state,
so scanning the key alone is equivalent.) -/
def regexFragmentOk (k : Str) : Bool := fragScan k 0 false false

/-- Outcome of one personalization pass: a result string, a thrown
JavaScript exception, or a key whose regex behavior the model does not
cover. -/
inductive POutcome
  | ok (text : Str)
  | thrown
  | unmodeled
deriving DecidableEq, Repr

/-- The source text of the pattern built for `key`: `{{key}}`. -/
def patFor (k : Str) : Str := lbrace :: lbrace :: (k ++ [rbrace, rbrace])

/-- One `personalizedMessage = personalizedMessage.replace(new RegExp(...),
String(value))` step for a raw key. -/
def substKey (msg k v : Str) : POutcome :=
  if regexFragmentOk k = false then .thrown
  else if literalKey k then .ok (jsReplaceAll (patFor k) v msg)
  else .unmodeled

/-- `Object.keys(bag).forEach(...)` over a key/value bag. -/
def substKeys : Str → List (Str × JSValue) → POutcome
  | msg, [] => .ok msg
  | msg, (k, v) :: rest =>
    match substKey msg k (jsString v) with
    | .ok m => substKeys m rest
    | .thrown => .thrown
    | .unmodeled => .unmodeled

/-- The personalization block of `sendBulkMessages`: `{{name}}` and
`{{phone}}` first (regex literals, replacement is the raw contact field),
then every key of `contact.extra`, then every key of
`campaign.fixedParams`. -/
def personalize (msg : Str) (c : ContactRow) (fp : List (Str × JSValue)) : POutcome :=
  match substKeys (jsReplaceAll (patFor (str "phone")) c.phone
      (jsReplaceAll (patFor (str "name")) c.name msg)) c.extra with
  | .ok m3 => substKeys m3 fp
  | r => r

/-- The substitution sources in the fixed precedence order of spec §4.3:
recipient identity tokens, then recipient extra fields, then campaign fixed
parameters. -/
def personalizeSubsts (c : ContactRow) (fp : List (Str × JSValue)) :
    List (Str × JSValue) :=
  [(str "name", .vStr c.name), (str "phone", .vStr c.phone)] ++ c.extra ++ fp

/-- Spec-level personalization, following the words of spec §4.3: exact
literal token `{{key}}` substitution, in the fixed source order, values
coerced to strings, unmatched tokens untouched.  Stated separately from
`personalize` (which is translated from the source) so the two can be
compared. -/
def personalizeSpec (msg : Str) (c : ContactRow) (fp : List (Str × JSValue)) : Str :=
  (personalizeSubsts c fp).foldl
    (fun m kv => litReplaceAll (patFor kv.1) (jsString kv.2) m) msg

/-- A replacement string with no `$` expands to itself. -/
theorem expandRepl_no_dollar (before matched after : Str) :
    ∀ repl : Str, dollarChar ∉ repl → expandRepl before matched after repl = repl := by
  intro repl
  induction repl with
  | nil => intro _; rfl
  | cons c tail ih =>
    intro hmem
    simp only [List.mem_cons, not_or] at hmem
    obtain ⟨hc, htail⟩ := hmem
    cases tail with
    | nil => rfl
    | cons d rest =>
      rw [expandRepl, if_neg (fun h => hc h.symm), ih htail]

/-- With a `$`-free replacement, JavaScript replace coincides with plain
literal replacement, whatever prefix was already consumed. -/
theorem replGoS_eq_litGoS (p : Char) (pt repl : Str) (hd : dollarChar ∉ repl) :
    ∀ (s : Str) (k : Nat) (consumedRev : Str),
      replGoS p pt repl consumedRev k s = litGoS p pt repl k s := by
  intro s
  induction s with
  | nil => intro k cr; cases k <;> rfl
  | cons c rest ih =>
    intro k cr
    cases k with
    | succ k => rw [replGoS, litGoS, ih]
    | zero =>
      rw [replGoS, litGoS]
      by_cases hpre : (p :: pt).isPrefixOf (c :: rest)
      · rw [if_pos hpre, if_pos hpre, expandRepl_no_dollar _ _ _ _ hd, ih]
      · rw [if_neg hpre, if_neg hpre, ih]

/-- If the pattern occurs nowhere in the subject, literal replacement is the
identity. -/
theorem litGoS_no_match (p : Char) (pt repl : Str) :
    ∀ s : Str, ¬ (p :: pt) <:+: s → litGoS p pt repl 0 s = s := by
  intro s
  induction s with
  | nil => intro _; rfl
  | cons c rest ih =>
    intro hno
    have hpre : (p :: pt).isPrefixOf (c :: rest) = false := by
      rw [Bool.eq_false_iff]
      intro hb
      exact hno (List.isPrefixOf_iff_prefix.mp hb).isInfix
    rw [litGoS, hpre, if_neg (by simp), ih (fun hi => hno (List.infix_cons hi))]

/-- `litReplaceAll` for a `{{key}}` pattern that does not occur. -/
theorem litReplaceAll_no_match (k repl s : Str) (h : ¬ patFor k <:+: s) :
    litReplaceAll (patFor k) repl s = s := by
  rw [patFor] at h ⊢
  exact litGoS_no_match _ _ _ s h

/-- A metacharacter-free key is a syntactically valid regex fragment. -/
theorem literalKey_fragScan :
    ∀ k : Str, literalKey k = true → fragScan k 0 false false = true := by
  intro k
  induction k with
  | nil => intro _; rfl
  | cons c rest ih =>
    intro h
    rw [literalKey, List.all_cons, Bool.and_eq_true] at h
    obtain ⟨hc, hrest⟩ := h
    rw [Bool.not_eq_eq_eq_not, Bool.not_true] at hc
    have hne : ∀ x : Char, x ∈ regexMeta → c ≠ x := by
      intro x hx he
      subst he
      rw [List.contains_eq_any_beq] at hc
      have : regexMeta.any (c == ·) = true := List.any_of_mem hx (by simp)
      rw [this] at hc; cases hc
    rw [fragScan, if_neg (by simp),
      if_neg (hne backslashChar (by simp [regexMeta])),
      if_neg (by simp),
      if_neg (hne '[' (by simp [regexMeta])),
      if_neg (hne '(' (by simp [regexMeta])),
      if_neg (hne ')' (by simp [regexMeta]))]
    exact ih hrest

/-- For a literal key and a `$`-free value, the source's substitution step
succeeds and is plain literal replacement. -/
theorem substKey_literal (msg k v : Str) (hk : literalKey k = true)
    (hv : dollarChar ∉ v) :
    substKey msg k v = POutcome.ok (litReplaceAll (patFor k) v msg) := by
  rw [substKey, regexFragmentOk, literalKey_fragScan k hk]
  rw [if_neg (by simp), if_pos hk]
  rw [patFor, jsReplaceAll, litReplaceAll]
  rw [replGoS_eq_litGoS _ _ _ hv]

/-- Folding the substitution step over a bag of literal keys with `$`-free
values succeeds and equals the literal fold. -/
theorem substKeys_literal :
    ∀ (kvs : List (Str × JSValue)) (msg : Str),
      (∀ kv ∈ kvs, literalKey kv.1 = true ∧ dollarChar ∉ jsString kv.2) →
      substKeys msg kvs = POutcome.ok
        (kvs.foldl (fun m kv => litReplaceAll (patFor kv.1) (jsString kv.2) m) msg) := by
  intro kvs
  induction kvs with
  | nil => intro msg _; rfl
  | cons kv rest ih =>
    intro msg h
    obtain ⟨hk, hv⟩ := h kv (by simp)
    rw [substKeys, substKey_literal _ _ _ hk hv, List.foldl_cons]
    exact ih _ (fun x hx => h x (by simp [hx]))

/-- For a `{{key}}` pattern, a `$`-free replacement makes the JavaScript
replace equal to literal replacement, whatever the key. -/
theorem jsReplaceAll_patFor_eq_lit (k v msg : Str) (hv : dollarChar ∉ v) :
    jsReplaceAll (patFor k) v msg = litReplaceAll (patFor k) v msg := by
  rw [patFor, jsReplaceAll, litReplaceAll, replGoS_eq_litGoS _ _ _ hv]

/-- A literal fold over substitutions none of whose tokens occur leaves the
message unchanged. -/
theorem foldl_lit_no_match :
    ∀ (kvs : List (Str × JSValue)) (msg : Str),
      (∀ kv ∈ kvs, ¬ patFor kv.1 <:+: msg) →
      kvs.foldl (fun m kv => litReplaceAll (patFor kv.1) (jsString kv.2) m) msg = msg := by
  intro kvs
  induction kvs with
  | nil => intro msg _; rfl
  | cons kv rest ih =>
    intro msg h
    rw [List.foldl_cons, litReplaceAll_no_match _ _ _ (h kv (by simp))]
    exact ih msg (fun x hx => h x (by simp [hx]))

/-- Example personalization inputs from the spec's testable property. -/
def ashaRow : ContactRow := ⟨str "Asha", str "9190000001", []⟩

/-- The fixed parameters `{date: "Nov 20"}` of the spec's example. -/
def novParams : List (Str × JSValue) := [(str "date", .vStr (str "Nov 20"))]

/-- A recipient whose extra bag has a key containing the regular-expression
metacharacter `(`. -/
def parenKeyRow : ContactRow :=
  ⟨str "Asha", str "9190000001", [(str "(", .vStr (str "x"))]⟩

/-- C4 (amended): when every extra-field and fixed-parameter key is free of
regular-expression metacharacters and every substituted value (after string
coercion) contains no `$`, personalization succeeds and equals the
spec-level substitution: exact case-sensitive `{{key}}` tokens substituted
in the fixed order — `{{name}}`, `{{phone}}`, then the recipient's extra
keys, then the campaign fixed-parameter keys, values coerced to string —
and when no source token occurs in the text at all, the text is returned
verbatim. -/
theorem personalize_literal_keys_refines_spec (msg : Str) (c : ContactRow)
    (fp : List (Str × JSValue))
    (hkeys : ∀ kv ∈ c.extra ++ fp, literalKey kv.1 = true)
    (hvals : ∀ kv ∈ personalizeSubsts c fp, dollarChar ∉ jsString kv.2) :
    personalize msg c fp = POutcome.ok (personalizeSpec msg c fp)
  ∧ ((∀ kv ∈ personalizeSubsts c fp, ¬ patFor kv.1 <:+: msg) →
      personalize msg c fp = POutcome.ok msg) := by
  have hname : dollarChar ∉ c.name := by
    have := hvals (str "name", .vStr c.name) (by simp [personalizeSubsts])
    simpa [jsString] using this
  have hphone : dollarChar ∉ c.phone := by
    have := hvals (str "phone", .vStr c.phone) (by simp [personalizeSubsts])
    simpa [jsString] using this
  have hmain : personalize msg c fp = POutcome.ok (personalizeSpec msg c fp) := by
    rw [personalize]
    rw [jsReplaceAll_patFor_eq_lit _ _ _ hname, jsReplaceAll_patFor_eq_lit _ _ _ hphone]
    rw [substKeys_literal c.extra _ (fun kv hkv =>
      ⟨hkeys kv (List.mem_append_left _ hkv),
        hvals kv (by simp [personalizeSubsts, hkv])⟩)]
    dsimp only
    rw [substKeys_literal fp _ (fun kv hkv =>
      ⟨hkeys kv (List.mem_append_right _ hkv),
        hvals kv (by simp [personalizeSubsts, hkv])⟩)]
    rw [personalizeSpec, personalizeSubsts]
    simp [List.foldl_append, jsString]
  refine ⟨hmain, fun hnm => ?_⟩
  rw [hmain, personalizeSpec, foldl_lit_no_match _ _ hnm]

/-- Witness for C4 (amended), instantiated at the spec's concrete example:
fixed parameters `{date: "Nov 20"}`, recipient `{name: "Asha", extra: {}}`,
text `"Hi {{name}}, join on {{date}}"`, giving exactly
`"Hi Asha, join on Nov 20"`. -/
theorem personalize_literal_keys_refines_spec_witness :
    personalize (str "Hi \x7b\x7bname\x7d\x7d, join on \x7b\x7bdate\x7d\x7d")
        ashaRow novParams
      = POutcome.ok (str "Hi Asha, join on Nov 20") := by
  have h := (personalize_literal_keys_refines_spec
    (str "Hi \x7b\x7bname\x7d\x7d, join on \x7b\x7bdate\x7d\x7d") ashaRow novParams
    (by decide) (by decide)).1
  rw [h]
  decide

/-- Counterexample to C4 as stated: with the same message and fixed
parameters as the spec's example but a recipient extra key `"("`, the
personalize step throws (the constructed `RegExp` source is an unterminated
group), so no substituted output exists and no token is left verbatim —
`personalize` does not return `POutcome.ok` of anything. -/
theorem personalize_metachar_key_throws :
    personalize (str "Hi \x7b\x7bname\x7d\x7d, join on \x7b\x7bdate\x7d\x7d")
      parenKeyRow novParams = POutcome.thrown := by decide

/-- A recipient extra bag with the metacharacter key `"("`. -/
def c10ParenRow : ContactRow :=
  ⟨str "B", str "9190000002", [(str "(", .vStr (str "v"))]⟩

/-- A recipient whose name is the JavaScript replacement pattern `$&`. -/
def c10DollarRow : ContactRow := ⟨str "$&", str "9190000003", []⟩

/-- C10: personalization builds its patterns from raw keys and its
replacements from raw values: for the extra key `"("` the step throws
instead of substituting or leaving the token verbatim; for the substituted
name value `"$&"` the output (`$&` re-inserts the matched `{{name}}` token)
does not contain the value verbatim.  Totality and verbatim insertion hold
only for metacharacter-free keys and `$`-pattern-free values (that
restricted positive direction is the amended C4). -/
theorem personalize_raw_regex_hazards :
    personalize (str "Hello \x7b\x7bcity\x7d\x7d") c10ParenRow [] = POutcome.thrown
  ∧ personalize (str "Hey \x7b\x7bname\x7d\x7d!") c10DollarRow []
      = POutcome.ok (str "Hey \x7b\x7bname\x7d\x7d!")
  ∧ ¬ (str "$&") <:+: (str "Hey \x7b\x7bname\x7d\x7d!") :=
  ⟨by decide, by decide, by decide⟩

/-! ## The dispatch loop (`CampaignService.sendBulkMessages`)

The loop is strictly sequential, so one run is a deterministic function of
the campaign, the contact list, and an oracle describing, per iteration,
what each awaited collaborator call would do: the variation generator's
response (`VariationService.generateVariation` catches internally and never
throws), the transport send, the two recipient-status database writes, and
the `Math.floor(Math.random() * 31)` draw of the pacing delay.  The oracle
record also carries the contents of the `blocked_numbers` store and an
external cancellation signal: both exist in the system, and neither is read
anywhere in `sendBulkMessages` — exactly as in the source, which contains
no suppression check and no cancellation check. -/

/-- A campaign button descriptor. -/
structure Button where
  text : Str
  url : Option Str := none
  phoneNumber : Option Str := none
deriving DecidableEq, Repr

/-- The campaign fields read by `sendBulkMessages`. -/
structure Campaign where
  originalMessage : Str
  fixedParams : List (Str × JSValue)
  buttons : List Button
deriving DecidableEq, Repr

/-- The `VariationResponse` returned by
`VariationService.generateVariation`; its catch-all means it never throws.
An empty `error` models a falsy (`undefined` or `""`) error field. -/
structure GenResult where
  success : Bool
  tweakedMessage : Str
  variationNumber : Nat
  error : Str
deriving DecidableEq, Repr

/-- Outcome of one awaited collaborator call: normal return, or a thrown
exception carrying `error.message`. -/
inductive CallOutcome
  | ok
  | throws (msg : Str)
deriving DecidableEq, Repr

/-- Oracle for one loop iteration. -/
structure IterEnv where
  gen : GenResult
  send : CallOutcome
  sentUpdate : CallOutcome
  failedUpdate : CallOutcome
  rand : Nat
  cancelRequested : Bool
deriving DecidableEq, Repr

/-- The fields of `IterEnv` that `sendBulkMessages` actually consumes: the
cancellation signal is not among them. -/
structure IterEnvCore where
  gen : GenResult
  send : CallOutcome
  sentUpdate : CallOutcome
  failedUpdate : CallOutcome
  rand : Nat
deriving DecidableEq, Repr

/-- Project an iteration oracle onto the fields the loop can observe. -/
def IterEnv.core (e : IterEnv) : IterEnvCore :=
  ⟨e.gen, e.send, e.sentUpdate, e.failedUpdate, e.rand⟩

/-- A recipient's `campaign_recipients.status` at the end of a run. -/
inductive RecipientStatus
  | pending
  | sent
  | failedWith (reason : Str)
deriving DecidableEq, Repr

/-- One transport invocation (`sendTextMessage` /
`sendMessageWithButtons`). -/
inductive TransportCall
  | text (phone msg : Str)
  | withButtons (phone msg : Str) (buttons : List Button)
deriving DecidableEq, Repr

/-- One entry of the run's `failed_list`. -/
structure FailedEntry where
  phone : Str
  name : Str
  reason : Str
deriving DecidableEq, Repr

/-- Observable trace and tally of a dispatch run. -/
structure RunTrace where
  sent : Nat
  failed : Nat
  failedList : List FailedEntry
  statuses : List RecipientStatus
  calls : List TransportCall
  delaysMs : List Nat
  aborted : Option Str
deriving DecidableEq, Repr

/-- The empty starting trace. -/
def emptyTrace : RunTrace := ⟨0, 0, [], [], [], [], none⟩

/-- `Variation generation failed: ${variationResult.error || 'Empty
message'}`. -/
def genFailReason (e : Str) : Str :=
  str "Variation generation failed: " ++ (if e = [] then str "Empty message" else e)

/-- The message of the `SyntaxError` thrown by `new RegExp` on an invalid
pattern (the precise JavaScript text is abstracted). -/
def regexThrowReason : Str := str "Invalid regular expression"

/-- Which transport operation the loop invokes: buttons configured means
`sendMessageWithButtons`, otherwise `sendTextMessage`. -/
def mkCall (camp : Campaign) (phone msg : Str) : TransportCall :=
  if camp.buttons = [] then .text phone msg else .withButtons phone msg camp.buttons

/-- Outcome of the `try` block of one iteration, up to (but not including)
the `sent`-status bookkeeping. -/
inductive TryOutcome
  | success (call : TransportCall)
  | failure (reason : Str) (call : Option TransportCall)
  | unmodeled
deriving DecidableEq, Repr

/-- The `try` block of one loop iteration: generation check, personalize,
transport send, sent-status write.  `failure` carries the reason of the
caught exception and records the transport call if one was made before the
throw. -/
def tryBody (camp : Campaign) (c : ContactRow) (e : IterEnv) : TryOutcome :=
  if e.gen.success && ! e.gen.tweakedMessage.isEmpty then
    match personalize e.gen.tweakedMessage c camp.fixedParams with
    | .unmodeled => .unmodeled
    | .thrown => .failure regexThrowReason none
    | .ok pmsg =>
      match e.send with
      | .throws m => .failure m (some (mkCall camp c.phone pmsg))
      | .ok =>
        match e.sentUpdate with
        | .throws m => .failure m (some (mkCall camp c.phone pmsg))
        | .ok => .success (mkCall camp c.phone pmsg)
  else .failure (genFailReason e.gen.error) none

/-- The recipient loop of `sendBulkMessages`.  On a successful step the
recipient is marked sent and, unless it was the last one, a pacing delay of
`(60 + rand) * 1000` ms is slept.  On a caught per-recipient failure the
counters and `failed_list` are updated, the failed-status write is awaited
— if *that* write throws, the exception escapes the loop (`aborted`),
leaving the current and all untouched recipients `pending` — and otherwise
a fixed 10000 ms recovery delay is slept unless it was the last recipient.
Returns `none` when an iteration hits regex behavior outside the model. -/
def simLoop (camp : Campaign) (env : Nat → IterEnv) :
    Nat → List ContactRow → RunTrace → Option RunTrace
  | _, [], acc => some acc
  | i, c :: rest, acc =>
    match tryBody camp c (env i) with
    | .unmodeled => none
    | .success call =>
      simLoop camp env (i + 1) rest
        { acc with
          sent := acc.sent + 1,
          statuses := acc.statuses ++ [.sent],
          calls := acc.calls ++ [call],
          delaysMs := acc.delaysMs ++
            (if rest = [] then [] else [(60 + (env i).rand) * 1000]) }
    | .failure reason call? =>
      let accF : RunTrace := { acc with
        failed := acc.failed + 1,
        failedList := acc.failedList ++ [FailedEntry.mk c.phone c.name reason],
        calls := acc.calls ++ call?.toList }
      match (env i).failedUpdate with
      | .throws m =>
        some { accF with
          statuses := (accF.statuses ++ [RecipientStatus.pending])
            ++ rest.map (fun _ => RecipientStatus.pending),
          aborted := some m }
      | .ok =>
        simLoop camp env (i + 1) rest
          { accF with
            statuses := accF.statuses ++ [RecipientStatus.failedWith reason],
            delaysMs := accF.delaysMs ++ (if rest = [] then [] else [10000]) }

/-- The `BulkSendResult` returned to the route handler. -/
structure BulkSendResult where
  success : Bool
  total : Nat
  sent : Nat
  failed : Nat
  failedList : List FailedEntry
deriving DecidableEq, Repr

/-- Overall outcome of `sendBulkMessages`. -/
inductive RunResult
  | thrownBefore (err : Str)
  | thrownDuring (err : Str) (trace : RunTrace)
  | completed (res : BulkSendResult) (trace : RunTrace)
  | unmodeled
deriving DecidableEq, Repr

/-- `CampaignService.sendBulkMessages`: campaign lookup, empty-contacts
check, pre-warm (observable only server-side: `generateVariation` catches
everything, so pre-warm cannot throw and contributes nothing to the tally),
then the recipient loop.  `suppressed` is the canonical-phone contents of
the `blocked_numbers` store: the source never consults it on this path. -/
def sendBulkMessages (camp? : Option Campaign) (contacts : List ContactRow)
    (suppressed : List Str) (env : Nat → IterEnv) : RunResult :=
  match camp? with
  | none => .thrownBefore (str "Campaign not found")
  | some camp =>
    if contacts = [] then .thrownBefore (str "No contacts found for this campaign")
    else
      match simLoop camp env 0 contacts emptyTrace with
      | none => .unmodeled
      | some tr =>
        match tr.aborted with
        | some e => .thrownDuring e tr
        | none => .completed
            ⟨true, contacts.length, tr.sent, tr.failed, tr.failedList⟩ tr

/-! ### Per-step denotations of the loop

Each iteration's observable effect is a function of the contact and that
iteration's oracle; the following definitions spell this out so that the
whole loop can be characterized in closed form when no exception escapes. -/

/-- The status an iteration assigns to its recipient. -/
def stepStatus (camp : Campaign) (c : ContactRow) (e : IterEnv) : RecipientStatus :=
  match tryBody camp c e with
  | .success _ => .sent
  | .failure r _ => .failedWith r
  | .unmodeled => .pending

/-- Whether a final status is `sent`. -/
def isSent : RecipientStatus → Bool
  | .sent => true
  | _ => false

/-- The transport invocations an iteration performs. -/
def stepCalls (camp : Campaign) (c : ContactRow) (e : IterEnv) : List TransportCall :=
  match tryBody camp c e with
  | .success call => [call]
  | .failure _ call? => call?.toList
  | .unmodeled => []

/-- The `failed_list` entries an iteration appends. -/
def stepFail (camp : Campaign) (c : ContactRow) (e : IterEnv) : List FailedEntry :=
  match tryBody camp c e with
  | .failure r _ => [⟨c.phone, c.name, r⟩]
  | _ => []

/-- The delay an iteration sleeps when it is not the last one: the pacing
window draw on success, the fixed 10-second recovery delay on failure. -/
def stepDelay (camp : Campaign) (c : ContactRow) (e : IterEnv) : Nat :=
  match tryBody camp c e with
  | .success _ => (60 + e.rand) * 1000
  | _ => 10000

/-- Statuses of all iterations from index `i` on. -/
def stepStatuses (camp : Campaign) (env : Nat → IterEnv) :
    Nat → List ContactRow → List RecipientStatus
  | _, [] => []
  | i, c :: rest => stepStatus camp c (env i) :: stepStatuses camp env (i + 1) rest

/-- Transport invocations of all iterations from index `i` on. -/
def stepCallsAll (camp : Campaign) (env : Nat → IterEnv) :
    Nat → List ContactRow → List TransportCall
  | _, [] => []
  | i, c :: rest => stepCalls camp c (env i) ++ stepCallsAll camp env (i + 1) rest

/-- `failed_list` entries of all iterations from index `i` on. -/
def stepFails (camp : Campaign) (env : Nat → IterEnv) :
    Nat → List ContactRow → List FailedEntry
  | _, [] => []
  | i, c :: rest => stepFail camp c (env i) ++ stepFails camp env (i + 1) rest

/-- Inter-recipient delays of all iterations from index `i` on (one per
iteration except the last). -/
def stepDelays (camp : Campaign) (env : Nat → IterEnv) :
    Nat → List ContactRow → List Nat
  | _, [] => []
  | i, c :: rest =>
    if rest = [] then [] else stepDelay camp c (env i) :: stepDelays camp env (i + 1) rest

/-- Master characterization: when every iteration's failed-status write
succeeds and no iteration hits unmodeled regex behavior, the loop never
aborts and its result is the pointwise denotation of its steps. -/
theorem simLoop_no_abort (camp : Campaign) (env : Nat → IterEnv) :
    ∀ (contacts : List ContactRow) (i : Nat) (acc : RunTrace),
      (∀ k, k < contacts.length → (env (i + k)).failedUpdate = CallOutcome.ok) →
      (∀ k (hk : k < contacts.length),
        tryBody camp (contacts.get ⟨k, hk⟩) (env (i + k)) ≠ TryOutcome.unmodeled) →
      simLoop camp env i contacts acc = some
        { sent := acc.sent + (stepStatuses camp env i contacts).countP isSent,
          failed := acc.failed +
            (stepStatuses camp env i contacts).countP (fun s => ! isSent s),
          failedList := acc.failedList ++ stepFails camp env i contacts,
          statuses := acc.statuses ++ stepStatuses camp env i contacts,
          calls := acc.calls ++ stepCallsAll camp env i contacts,
          delaysMs := acc.delaysMs ++ stepDelays camp env i contacts,
          aborted := acc.aborted } := by
  intro contacts
  induction contacts with
  | nil =>
    intro i acc _ _
    simp [simLoop, stepStatuses, stepCallsAll, stepFails, stepDelays]
  | cons c rest ih =>
    intro i acc hfail hcov
    have hfail0 : (env i).failedUpdate = CallOutcome.ok := by
      have := hfail 0 (by simp)
      simpa using this
    have hfail' : ∀ k, k < rest.length → (env (i + 1 + k)).failedUpdate = CallOutcome.ok := by
      intro k hk
      have := hfail (k + 1) (by simpa using Nat.succ_lt_succ hk)
      simpa [Nat.add_comm, Nat.add_assoc, Nat.add_left_comm] using this
    have hcov' : ∀ k (hk : k < rest.length),
        tryBody camp (rest.get ⟨k, hk⟩) (env (i + 1 + k)) ≠ TryOutcome.unmodeled := by
      intro k hk
      have := hcov (k + 1) (by simpa using Nat.succ_lt_succ hk)
      simpa [Nat.add_comm, Nat.add_assoc, Nat.add_left_comm] using this
    have hcov0 : tryBody camp c (env i) ≠ TryOutcome.unmodeled := by
      have := hcov 0 (by simp)
      simpa using this
    cases htb : tryBody camp c (env i) with
    | unmodeled => exact absurd htb hcov0
    | success call =>
      rw [simLoop, htb]
      dsimp only
      rw [ih (i + 1) _ hfail' hcov']
      congr 1
      simp only [stepStatuses, stepCallsAll, stepFails, stepDelays,
        stepStatus, stepCalls, stepFail, stepDelay, htb, isSent,
        List.countP_cons, List.append_assoc, List.singleton_append,
        RunTrace.mk.injEq]
      and_intros <;>
        first
          | rfl
          | trivial
          | (simp <;> omega)
          | (by_cases hr : rest = [] <;> simp [hr, stepDelays])
          | simp
    | failure reason call? =>
      rw [simLoop, htb]
      dsimp only
      rw [hfail0]
      dsimp only
      rw [ih (i + 1) _ hfail' hcov']
      congr 1
      simp only [stepStatuses, stepCallsAll, stepFails, stepDelays,
        stepStatus, stepCalls, stepFail, stepDelay, htb, isSent,
        List.countP_cons, List.append_assoc, List.singleton_append,
        RunTrace.mk.injEq]
      and_intros <;>
        first
          | rfl
          | trivial
          | (simp <;> omega)
          | (by_cases hr : rest = [] <;> simp [hr, stepDelays])
          | simp

/-- Counting a predicate and its negation accounts for every element. -/
theorem countP_bool_split {α : Type} (p : α → Bool) :
    ∀ l : List α, l.countP p + l.countP (fun a => ! p a) = l.length := by
  intro l
  induction l with
  | nil => simp
  | cons a l ih =>
    simp only [List.countP_cons, List.length_cons]
    cases hp : p a <;> simp [hp] <;> omega

/-- One status per contact. -/
theorem stepStatuses_length (camp : Campaign) (env : Nat → IterEnv) :
    ∀ (contacts : List ContactRow) (i : Nat),
      (stepStatuses camp env i contacts).length = contacts.length := by
  intro contacts
  induction contacts with
  | nil => intro i; rfl
  | cons c rest ih => intro i; simp [stepStatuses, ih]

/-- A modelled iteration never leaves its recipient `pending`. -/
theorem stepStatus_ne_pending (camp : Campaign) (c : ContactRow) (e : IterEnv)
    (h : tryBody camp c e ≠ TryOutcome.unmodeled) :
    stepStatus camp c e ≠ RecipientStatus.pending := by
  rw [stepStatus]
  cases htb : tryBody camp c e with
  | unmodeled => exact absurd htb h
  | success call => simp
  | failure r call? => simp

/-- Under coverage, every status in the denotation is non-`pending`. -/
theorem stepStatuses_ne_pending (camp : Campaign) (env : Nat → IterEnv) :
    ∀ (contacts : List ContactRow) (i : Nat),
      (∀ k (hk : k < contacts.length),
        tryBody camp (contacts.get ⟨k, hk⟩) (env (i + k)) ≠ TryOutcome.unmodeled) →
      ∀ s ∈ stepStatuses camp env i contacts, s ≠ RecipientStatus.pending := by
  intro contacts
  induction contacts with
  | nil => intro i _ s hs; simp [stepStatuses] at hs
  | cons c rest ih =>
    intro i hcov s hs
    rw [stepStatuses] at hs
    rcases List.mem_cons.mp hs with hs | hs
    · subst hs
      exact stepStatus_ne_pending camp c (env i)
        (by have := hcov 0 (by simp); simpa using this)
    · refine ih (i + 1) ?_ s hs
      intro k hk
      have := hcov (k + 1) (by simpa using Nat.succ_lt_succ hk)
      simpa [Nat.add_comm, Nat.add_assoc, Nat.add_left_comm] using this

/-- C3 (amended): once the recipient loop starts, per-recipient generation
failures, send failures, and failures of the sent-status write never abort
the run: provided every failed-status write succeeds (their failure is the
one per-recipient error that does escape the loop — see the
counterexample), the run completes with a full tally, `sent + failed`
accounts for every recipient, and every recipient is attempted (no status
is left `pending`). -/
theorem sendBulk_per_recipient_errors_do_not_abort
    (camp : Campaign) (contacts : List ContactRow) (suppressed : List Str)
    (env : Nat → IterEnv)
    (hne : contacts ≠ [])
    (hfail : ∀ k, k < contacts.length → (env k).failedUpdate = CallOutcome.ok)
    (hcov : ∀ k (hk : k < contacts.length),
      tryBody camp (contacts.get ⟨k, hk⟩) (env k) ≠ TryOutcome.unmodeled) :
    ∃ res tr,
      sendBulkMessages (some camp) contacts suppressed env = RunResult.completed res tr
      ∧ res.total = contacts.length
      ∧ res.sent + res.failed = contacts.length
      ∧ tr.statuses.length = contacts.length
      ∧ (∀ s ∈ tr.statuses, s ≠ RecipientStatus.pending) := by
  have hfail0 : ∀ k, k < contacts.length → (env (0 + k)).failedUpdate = CallOutcome.ok := by
    intro k hk; simpa using hfail k hk
  have hcov0 : ∀ k (hk : k < contacts.length),
      tryBody camp (contacts.get ⟨k, hk⟩) (env (0 + k)) ≠ TryOutcome.unmodeled := by
    intro k hk; simpa using hcov k hk
  have hm := simLoop_no_abort camp env contacts 0 emptyTrace hfail0 hcov0
  refine ⟨⟨true, contacts.length,
      emptyTrace.sent + (stepStatuses camp env 0 contacts).countP isSent,
      emptyTrace.failed + (stepStatuses camp env 0 contacts).countP (fun s => ! isSent s),
      emptyTrace.failedList ++ stepFails camp env 0 contacts⟩,
    ⟨emptyTrace.sent + (stepStatuses camp env 0 contacts).countP isSent,
      emptyTrace.failed + (stepStatuses camp env 0 contacts).countP (fun s => ! isSent s),
      emptyTrace.failedList ++ stepFails camp env 0 contacts,
      emptyTrace.statuses ++ stepStatuses camp env 0 contacts,
      emptyTrace.calls ++ stepCallsAll camp env 0 contacts,
      emptyTrace.delaysMs ++ stepDelays camp env 0 contacts,
      emptyTrace.aborted⟩, ?_, ?_, ?_, ?_, ?_⟩
  · rw [sendBulkMessages, if_neg hne, hm]
    rfl
  · rfl
  · simp only [emptyTrace, Nat.zero_add]
    rw [countP_bool_split, stepStatuses_length]
  · simp only [emptyTrace, List.nil_append]
    rw [stepStatuses_length]
  · simp only [emptyTrace, List.nil_append]
    exact stepStatuses_ne_pending camp env contacts 0 hcov0

/-- The campaign of the dispatch-loop examples. -/
def wCamp : Campaign := ⟨str "Hello \x7b\x7bname\x7d\x7d", [], []⟩

/-- Five uploaded recipients A..E. -/
def wRows : List ContactRow :=
  [⟨str "A", str "911", []⟩, ⟨str "B", str "912", []⟩, ⟨str "C", str "913", []⟩,
   ⟨str "D", str "914", []⟩, ⟨str "E", str "915", []⟩]

/-- An iteration oracle where everything succeeds (pacing draw 3). -/
def wEnvOk : IterEnv :=
  ⟨⟨true, str "Hello \x7b\x7bname\x7d\x7d", 1, []⟩, .ok, .ok, .ok, 3, false⟩

/-- The oracle where the third recipient's variation generation fails
(`generateVariation` returns `success: false` with the original message as
fallback text) and everything else succeeds. -/
def wEnvG3 : Nat → IterEnv := fun i =>
  if i = 2 then
    ⟨⟨false, str "Hello \x7b\x7bname\x7d\x7d", 0, str "Rewrite timeout"⟩, .ok, .ok, .ok, 3, false⟩
  else wEnvOk

/-- Witness for C3 (amended): five recipients with `GenerationFailed` on
recipient 3: the run completes, `sent == 4`, `failed == 1`, recipients 4
and 5 are attempted after the failure (their sends appear in the call
trace and their statuses are `sent`). -/
theorem sendBulk_per_recipient_errors_do_not_abort_witness :
    (∃ res tr,
      sendBulkMessages (some wCamp) wRows [] wEnvG3 = RunResult.completed res tr
      ∧ res.total = wRows.length
      ∧ res.sent + res.failed = wRows.length
      ∧ tr.statuses.length = wRows.length
      ∧ (∀ s ∈ tr.statuses, s ≠ RecipientStatus.pending))
  ∧ sendBulkMessages (some wCamp) wRows [] wEnvG3 = RunResult.completed
      ⟨true, 5, 4, 1, [⟨str "913", str "C", genFailReason (str "Rewrite timeout")⟩]⟩
      ⟨4, 1, [⟨str "913", str "C", genFailReason (str "Rewrite timeout")⟩],
        [.sent, .sent, .failedWith (genFailReason (str "Rewrite timeout")), .sent, .sent],
        [.text (str "911") (str "Hello A"), .text (str "912") (str "Hello B"),
         .text (str "914") (str "Hello D"), .text (str "915") (str "Hello E")],
        [63000, 63000, 10000, 63000], none⟩ := by
  constructor
  · exact sendBulk_per_recipient_errors_do_not_abort wCamp wRows [] wEnvG3
      (by decide) (by decide) (by decide)
  · decide

/-- Two uploaded recipients for the abort counterexample. -/
def abRows : List ContactRow := [⟨str "A", str "931", []⟩, ⟨str "B", str "932", []⟩]

/-- Oracle where recipient 1's transport send throws and the subsequent
failed-status database write also throws; recipient 2's iteration would
succeed. -/
def abEnv : Nat → IterEnv := fun i =>
  if i = 0 then
    ⟨⟨true, str "Hi", 1, []⟩, .throws (str "WhatsApp not connected"), .ok,
      .throws (str "connection terminated unexpectedly"), 0, false⟩
  else ⟨⟨true, str "Hi", 1, []⟩, .ok, .ok, .ok, 0, false⟩

/-- Counterexample to C3 as stated: a per-recipient status-update failure
*does* abort the run.  Recipient 1's send fails (a caught per-recipient
error), but the failed-status write inside the catch block throws, the
exception escapes `sendBulkMessages`, recipient 2 is never attempted (one
transport call only, both statuses still `pending`), and no tally is
returned. -/
theorem sendBulk_failed_status_write_aborts_cex :
    sendBulkMessages (some wCamp) abRows [] abEnv
      = RunResult.thrownDuring (str "connection terminated unexpectedly")
          ⟨0, 1, [⟨str "931", str "A", str "WhatsApp not connected"⟩],
            [.pending, .pending],
            [.text (str "931") (str "Hi")], [],
            some (str "connection terminated unexpectedly")⟩ := by decide

/-- Pointwise characterization of the statuses denotation. -/
theorem stepStatuses_getElem? (camp : Campaign) (env : Nat → IterEnv) :
    ∀ (contacts : List ContactRow) (i k : Nat),
      (stepStatuses camp env i contacts)[k]? =
        (contacts[k]?).map (fun c => stepStatus camp c (env (i + k))) := by
  intro contacts
  induction contacts with
  | nil => intro i k; simp [stepStatuses]
  | cons c rest ih =>
    intro i k
    cases k with
    | zero => simp [stepStatuses]
    | succ k =>
      simp only [stepStatuses, List.getElem?_cons_succ, ih]
      have he : i + 1 + k = i + (k + 1) := by omega
      rw [he]

/-- One inter-recipient delay per iteration except the last. -/
theorem stepDelays_length (camp : Campaign) (env : Nat → IterEnv) :
    ∀ (contacts : List ContactRow) (i : Nat),
      (stepDelays camp env i contacts).length = contacts.length - 1 := by
  intro contacts
  induction contacts with
  | nil => intro i; rfl
  | cons c rest ih =>
    intro i
    rw [stepDelays]
    by_cases hr : rest = []
    · simp [hr]
    · rw [if_neg hr]
      simp only [List.length_cons, ih]
      have := List.length_pos.mpr hr
      omega

/-- Pointwise characterization of the delays denotation. -/
theorem stepDelays_getElem? (camp : Campaign) (env : Nat → IterEnv) :
    ∀ (contacts : List ContactRow) (i k : Nat), k + 1 < contacts.length →
      (stepDelays camp env i contacts)[k]? =
        (contacts[k]?).map (fun c => stepDelay camp c (env (i + k))) := by
  intro contacts
  induction contacts with
  | nil => intro i k h; simp at h
  | cons c rest ih =>
    intro i k h
    have hr : rest ≠ [] := by
      intro he; subst he; simp at h
    rw [stepDelays, if_neg hr]
    cases k with
    | zero => simp
    | succ k =>
      have hk : k + 1 < rest.length := by
        simp only [List.length_cons] at h; omega
      simp only [List.getElem?_cons_succ]
      rw [ih _ k hk]
      have he : i + 1 + k = i + (k + 1) := by omega
      rw [he]

/-- C7 (amended): in every dispatch run whose failed-status writes succeed
(when one throws, the run aborts with *no* recovery delay — see the
counterexample), each recipient except the last is followed by exactly one
inter-iteration delay; after a successful step that delay is
`(60 + u) * 1000` ms where `u` is that iteration's uniform draw
`Math.floor(Math.random() * 31)` — hence within the 60–90 second pacing
window — and after a failed step it is the fixed 10-second recovery delay.
After the final recipient no delay is applied (there is no delay slot for
the last index). -/
theorem sendBulk_pacing_delays
    (camp : Campaign) (contacts : List ContactRow) (suppressed : List Str)
    (env : Nat → IterEnv)
    (hne : contacts ≠ [])
    (hfail : ∀ k, k < contacts.length → (env k).failedUpdate = CallOutcome.ok)
    (hcov : ∀ k (hk : k < contacts.length),
      tryBody camp (contacts.get ⟨k, hk⟩) (env k) ≠ TryOutcome.unmodeled)
    (hrand : ∀ k, (env k).rand ≤ 30) :
    ∃ res tr,
      sendBulkMessages (some camp) contacts suppressed env = RunResult.completed res tr
      ∧ tr.delaysMs.length = contacts.length - 1
      ∧ ∀ k, k + 1 < contacts.length →
          (tr.statuses[k]? = some RecipientStatus.sent →
            tr.delaysMs[k]? = some ((60 + (env k).rand) * 1000)
            ∧ 60000 ≤ (60 + (env k).rand) * 1000
            ∧ (60 + (env k).rand) * 1000 ≤ 90000)
          ∧ (tr.statuses[k]? ≠ some RecipientStatus.sent →
            tr.delaysMs[k]? = some 10000) := by
  have hfail0 : ∀ k, k < contacts.length → (env (0 + k)).failedUpdate = CallOutcome.ok := by
    intro k hk; simpa using hfail k hk
  have hcov0 : ∀ k (hk : k < contacts.length),
      tryBody camp (contacts.get ⟨k, hk⟩) (env (0 + k)) ≠ TryOutcome.unmodeled := by
    intro k hk; simpa using hcov k hk
  have hm := simLoop_no_abort camp env contacts 0 emptyTrace hfail0 hcov0
  refine ⟨⟨true, contacts.length,
      emptyTrace.sent + (stepStatuses camp env 0 contacts).countP isSent,
      emptyTrace.failed + (stepStatuses camp env 0 contacts).countP (fun s => ! isSent s),
      emptyTrace.failedList ++ stepFails camp env 0 contacts⟩,
    ⟨emptyTrace.sent + (stepStatuses camp env 0 contacts).countP isSent,
      emptyTrace.failed + (stepStatuses camp env 0 contacts).countP (fun s => ! isSent s),
      emptyTrace.failedList ++ stepFails camp env 0 contacts,
      emptyTrace.statuses ++ stepStatuses camp env 0 contacts,
      emptyTrace.calls ++ stepCallsAll camp env 0 contacts,
      emptyTrace.delaysMs ++ stepDelays camp env 0 contacts,
      emptyTrace.aborted⟩, ?_, ?_, ?_⟩
  · rw [sendBulkMessages, if_neg hne, hm]
    rfl
  · simp only [emptyTrace, List.nil_append]
    exact stepDelays_length camp env contacts 0
  · intro k hk1
    have hklt : k < contacts.length := by omega
    have hstat : (emptyTrace.statuses ++ stepStatuses camp env 0 contacts)[k]? =
        (contacts[k]?).map (fun c => stepStatus camp c (env k)) := by
      simp only [emptyTrace, List.nil_append]
      rw [stepStatuses_getElem?]
      simp
    have hdel : (emptyTrace.delaysMs ++ stepDelays camp env 0 contacts)[k]? =
        (contacts[k]?).map (fun c => stepDelay camp c (env k)) := by
      simp only [emptyTrace, List.nil_append]
      rw [stepDelays_getElem? camp env contacts 0 k hk1]
      simp
    have hck : contacts[k]? = some (contacts.get ⟨k, hklt⟩) := by
      simp [List.getElem?_eq_getElem hklt]
    set ck := contacts.get ⟨k, hklt⟩ with hckdef
    constructor
    · intro hsent
      rw [hstat, hck] at hsent
      have hst : stepStatus camp ck (env k) = RecipientStatus.sent := by
        simpa using hsent
      rw [hdel, hck]
      rw [stepStatus] at hst
      cases htb : tryBody camp ck (env k) with
      | success call =>
        refine ⟨by simp [stepDelay, htb], by omega, ?_⟩
        have := hrand k
        omega
      | failure r c? => rw [htb] at hst; simp at hst
      | unmodeled => rw [htb] at hst; simp at hst
    · intro hns
      rw [hstat, hck] at hns
      rw [hdel, hck]
      cases htb : tryBody camp ck (env k) with
      | success call =>
        exact absurd (by simp [stepStatus, htb]) hns
      | failure r c? => simp [stepDelay, htb]
      | unmodeled =>
        exact absurd htb (hcov k hklt)

/-- Witness for C7 at a concrete five-recipient run (four successes, one
generation failure): the theorem's hypotheses hold and the conclusion
follows; the concrete delay list, `[63000, 63000, 10000, 63000]`, is
checked in the C3 witness for the same run. -/
theorem sendBulk_pacing_delays_witness :
    ∃ res tr,
      sendBulkMessages (some wCamp) wRows [] wEnvG3 = RunResult.completed res tr
      ∧ tr.delaysMs.length = wRows.length - 1
      ∧ ∀ k, k + 1 < wRows.length →
          (tr.statuses[k]? = some RecipientStatus.sent →
            tr.delaysMs[k]? = some ((60 + (wEnvG3 k).rand) * 1000)
            ∧ 60000 ≤ (60 + (wEnvG3 k).rand) * 1000
            ∧ (60 + (wEnvG3 k).rand) * 1000 ≤ 90000)
          ∧ (tr.statuses[k]? ≠ some RecipientStatus.sent →
            tr.delaysMs[k]? = some 10000) :=
  sendBulk_pacing_delays wCamp wRows [] wEnvG3
    (by decide) (by decide) (by decide)
    (by intro k; unfold wEnvG3; split <;> decide)

/-- The campaign of the missing-recovery-delay counterexample. -/
def pdCamp : Campaign := ⟨str "Yo", [], []⟩

/-- Two recipients for the missing-recovery-delay counterexample. -/
def pdRows : List ContactRow := [⟨str "P", str "941", []⟩, ⟨str "Q", str "942", []⟩]

/-- Oracle where recipient 1's send throws and the failed-status write in
the catch block also throws; recipient 2's iteration would succeed. -/
def pdEnv : Nat → IterEnv := fun i =>
  if i = 0 then
    ⟨⟨true, str "Yo", 1, []⟩, .throws (str "rate limited"), .ok,
      .throws (str "db down"), 0, false⟩
  else ⟨⟨true, str "Yo", 1, []⟩, .ok, .ok, .ok, 0, false⟩

/-- Counterexample to C7 as stated: recipient 1 of 2 fails (its send
throws), so a 10-second recovery delay should follow — but the
failed-status write inside the catch throws first, `this.delay(10000)` is
never reached, and the run aborts with an empty delay list: a non-last
failed step followed by no delay at all. -/
theorem failed_step_without_recovery_delay_cex :
    sendBulkMessages (some pdCamp) pdRows [] pdEnv
      = RunResult.thrownDuring (str "db down")
          ⟨0, 1, [⟨str "941", str "P", str "rate limited"⟩],
            [.pending, .pending],
            [.text (str "941") (str "Yo")], [],
            some (str "db down")⟩ := by decide

/-! ### Suppression (C1) and cancellation (C9)

`sendBulkMessages` receives the blocklist store contents and the external
cancellation signal in its environment, but — like the source — never reads
either: there is no suppression check anywhere on the bulk-send path (the
only `isNumberBlocked` call in the repository serves the
`/api/blocklist/check` route), and no cancellation check in the loop. -/

/-- A minimal campaign with no buttons and a token-free message. -/
def c1Camp : Campaign := ⟨str "Hello", [], []⟩

/-- A recipient whose canonical phone will be placed in the blocklist. -/
def c1Row : ContactRow := ⟨str "Asha", str "+91 90000 00001", []⟩

/-- An all-success oracle (pacing draw 0, no cancellation). -/
def happyEnv : Nat → IterEnv :=
  fun _ => ⟨⟨true, str "Hello", 1, []⟩, .ok, .ok, .ok, 0, false⟩

/-- C1 is violated by the code: with the recipient's canonical phone in the
suppression store, the run still invokes the transport send for that
recipient (`sendTextMessage` appears in the call trace), marks it `sent`,
and reports an empty `failedList` — the loop never consults the store.
`STOP_BUTTON_FEATURE.md` ("Campaign Filtering": blocked numbers are
skipped and appear in the failed list as "Number is blocked (user opted
out)") documents the intended behavior that this run contradicts. -/
theorem suppressed_recipient_still_sent :
    cleanPhone c1Row.phone ∈ [cleanPhone c1Row.phone]
  ∧ sendBulkMessages (some c1Camp) [c1Row] [cleanPhone c1Row.phone] happyEnv
      = RunResult.completed ⟨true, 1, 1, 0, []⟩
          ⟨1, 0, [], [.sent], [.text c1Row.phone (str "Hello")], [], none⟩ :=
  ⟨by decide, by decide⟩

/-- The try block reads its oracle only through the core fields. -/
theorem tryBody_core (camp : Campaign) (c : ContactRow) {e e' : IterEnv}
    (h : e.core = e'.core) : tryBody camp c e = tryBody camp c e' := by
  obtain ⟨g, s, su, fu, r, cx⟩ := e
  obtain ⟨g', s', su', fu', r', cx'⟩ := e'
  simp only [IterEnv.core, IterEnvCore.mk.injEq] at h
  obtain ⟨h1, h2, h3, h4, h5⟩ := h
  subst h1; subst h2; subst h3; subst h4; subst h5
  rfl

/-- The loop reads its oracle only through the core fields: the
cancellation signal is invisible to it. -/
theorem simLoop_depends_only_on_core (camp : Campaign) (env env' : Nat → IterEnv)
    (h : ∀ k, (env k).core = (env' k).core) :
    ∀ (contacts : List ContactRow) (i : Nat) (acc : RunTrace),
      simLoop camp env i contacts acc = simLoop camp env' i contacts acc := by
  intro contacts
  induction contacts with
  | nil => intro i acc; rfl
  | cons c rest ih =>
    intro i acc
    have hf : (env i).failedUpdate = (env' i).failedUpdate :=
      congrArg IterEnvCore.failedUpdate (h i)
    have hr : (env i).rand = (env' i).rand :=
      congrArg IterEnvCore.rand (h i)
    rw [simLoop, simLoop, tryBody_core camp c (h i), hf, hr]
    cases tryBody camp c (env' i) with
    | unmodeled => rfl
    | success call => exact ih (i + 1) _
    | failure reason call? =>
      dsimp only
      cases (env' i).failedUpdate with
      | throws m => rfl
      | ok => exact ih (i + 1) _

/-- C9 (amended): the dispatch loop checks no cancellation signal at all —
its entire observable outcome (result, tally, statuses, transport calls,
delays) is identical whether or not the external cancellation signal is
set at any iteration, so a set signal never stops the run and recipients
are left `pending` only by an escaping exception, not by cancellation. -/
theorem sendBulk_ignores_cancellation (camp? : Option Campaign)
    (contacts : List ContactRow) (suppressed : List Str)
    (env env' : Nat → IterEnv)
    (h : ∀ k, (env k).core = (env' k).core) :
    sendBulkMessages camp? contacts suppressed env
      = sendBulkMessages camp? contacts suppressed env' := by
  cases camp? with
  | none => rfl
  | some camp =>
    rw [sendBulkMessages, sendBulkMessages]
    by_cases hc : contacts = []
    · rw [if_pos hc, if_pos hc]
    · rw [if_neg hc, if_neg hc,
        simLoop_depends_only_on_core camp env env' h contacts 0 emptyTrace]

/-- The campaign of the cancellation examples. -/
def c9Camp : Campaign := ⟨str "Hello", [], []⟩

/-- Two recipients for the cancellation run. -/
def c9Rows : List ContactRow := [⟨str "A", str "921", []⟩, ⟨str "B", str "922", []⟩]

/-- All-success oracle with the cancellation signal set at every
iteration. -/
def c9EnvOn : Nat → IterEnv :=
  fun _ => ⟨⟨true, str "Hello", 1, []⟩, .ok, .ok, .ok, 0, true⟩

/-- The same oracle with the cancellation signal clear. -/
def c9EnvOff : Nat → IterEnv :=
  fun _ => ⟨⟨true, str "Hello", 1, []⟩, .ok, .ok, .ok, 0, false⟩

/-- Witness for C9 (amended): a run with the signal set everywhere equals
the same run with the signal clear. -/
theorem sendBulk_ignores_cancellation_witness :
    sendBulkMessages (some c9Camp) c9Rows [] c9EnvOn
      = sendBulkMessages (some c9Camp) c9Rows [] c9EnvOff :=
  sendBulk_ignores_cancellation (some c9Camp) c9Rows [] c9EnvOn c9EnvOff
    (fun _ => rfl)

/-- Counterexample to C9 as stated: with the cancellation signal set from
before the first iteration, the loop does not stop: both recipients are
processed and sent (two transport calls, no recipient left `pending`),
instead of stopping cleanly with the untouched recipients `pending`. -/
theorem cancellation_signal_ignored_cex :
    sendBulkMessages (some c9Camp) c9Rows [] c9EnvOn
      = RunResult.completed ⟨true, 2, 2, 0, []⟩
          ⟨2, 0, [], [.sent, .sent],
            [.text (str "921") (str "Hello"), .text (str "922") (str "Hello")],
            [60000], none⟩ := by decide

/-! ## The variation generator (Supabase edge function
`bulk-message-generator/index.ts`)

The handler fetches the campaign's prior variations in `created_at` order,
keeps those with non-blank messages, sets
`variationCount = totalVariations + 1`, truncates the *prompt* context to
the most recent `MAX_VARIATIONS_FOR_PROMPT`, and — after the rewrite call
succeeds — inserts the new row with `variation_number = variationCount`.
Nothing serializes concurrent invocations for one campaign: the count-read
and the insert are separate database calls, and the
`message_variations` table has no uniqueness constraint on
`(campaign_id, variation_number)`. -/

def MAX_VARIATIONS_FOR_PROMPT : Nat := 20

/-- JS `m && m.trim() !== ""`: the row's message has a non-blank
character. -/
def hasContent (m : Str) : Bool := m.any (fun c => ! c.isWhitespace)

/-- What the handler derives from the fetched rows before calling the
rewrite service. -/
structure GenPrep where
  totalVariations : Nat
  variationNumber : Nat
  promptContext : List Str
deriving DecidableEq, Repr

/-- Steps 3–4 of the handler: filter blank rows, count, number, truncate
the prompt context to the most recent `MAX_VARIATIONS_FOR_PROMPT`
(`slice(-MAX_VARIATIONS_FOR_PROMPT)`). -/
def prepareGeneration (rows : List Str) : GenPrep :=
  let valid := rows.filter hasContent
  { totalVariations := valid.length,
    variationNumber := valid.length + 1,
    promptContext :=
      if valid.length > MAX_VARIATIONS_FOR_PROMPT then
        valid.drop (valid.length - MAX_VARIATIONS_FOR_PROMPT)
      else valid }

/-- C8: when the campaign's count of valid prior variations P exceeds the
cap of 20, the prompt's novelty context is exactly the most recent 20 (a
length-20 suffix of the prior list), while the assigned variation number is
still computed from the full count: `variationNumber = P + 1`.  Prompt
truncation never affects numbering. -/
theorem generation_prompt_truncation (rows : List Str)
    (h : (rows.filter hasContent).length > MAX_VARIATIONS_FOR_PROMPT) :
    (prepareGeneration rows).promptContext
        = (rows.filter hasContent).drop
            ((rows.filter hasContent).length - MAX_VARIATIONS_FOR_PROMPT)
  ∧ (prepareGeneration rows).promptContext.length = MAX_VARIATIONS_FOR_PROMPT
  ∧ (prepareGeneration rows).promptContext <:+ rows.filter hasContent
  ∧ (prepareGeneration rows).variationNumber
      = (rows.filter hasContent).length + 1 := by
  have hp : (prepareGeneration rows).promptContext
      = (rows.filter hasContent).drop
          ((rows.filter hasContent).length - MAX_VARIATIONS_FOR_PROMPT) := by
    rw [prepareGeneration]
    dsimp only
    rw [if_pos h]
  refine ⟨hp, ?_, ?_, rfl⟩
  · rw [hp, List.length_drop]
    omega
  · rw [hp]
    exact List.drop_suffix _ _

/-- 21 prior variation rows. -/
def c8Rows : List Str := List.replicate 21 (str "v")

/-- Witness for C8 at 21 prior variations: the prompt context shrinks to
20 while the assigned number is 22. -/
theorem generation_prompt_truncation_witness :
    (prepareGeneration c8Rows).promptContext.length = MAX_VARIATIONS_FOR_PROMPT
  ∧ (prepareGeneration c8Rows).variationNumber = 22 := by
  have h := generation_prompt_truncation c8Rows (by decide)
  exact ⟨h.2.1, h.2.2.2.trans (by decide)⟩

/-- The two database phases of one edge-function invocation: the
count-read of prior variations and the insert of the new row. -/
inductive GenPhase
  | read
  | insert
deriving DecidableEq, Repr

/-- Execute a schedule of interleaved generation phases against one
campaign's `message_variations` store, modelled as its list of
`variation_number`s in creation order.  A read captures the current row
count into the generation's local state (successful generations insert
non-blank messages only, so the handler's filter counts every stored row);
an insert appends `captured + 1` as the row's number.  An insert without a
prior read is a no-op (invalid schedule). -/
def execFull :
    List (Nat × GenPhase) → List (Nat × Nat) → List Nat →
      List (Nat × Nat) × List Nat
  | [], locals, store => (locals, store)
  | (g, .read) :: rest, locals, store =>
      execFull rest ((g, store.length) :: locals) store
  | (g, .insert) :: rest, locals, store =>
      match locals.lookup g with
      | some c => execFull rest locals (store ++ [c + 1])
      | none => execFull rest locals store

/-- The store contents after running a schedule. -/
def execSched (s : List (Nat × GenPhase)) (locals : List (Nat × Nat))
    (store : List Nat) : List Nat :=
  (execFull s locals store).2

/-- The fully serialized schedule of `n` generations: each invocation's
read immediately followed by its insert. -/
def serialSched : Nat → List (Nat × GenPhase)
  | 0 => []
  | n + 1 => serialSched n ++ [(n, .read), (n, .insert)]

/-- Executing a concatenated schedule threads locals and store. -/
theorem execFull_append :
    ∀ (s t : List (Nat × GenPhase)) (locals : List (Nat × Nat)) (store : List Nat),
      execFull (s ++ t) locals store
        = execFull t (execFull s locals store).1 (execFull s locals store).2 := by
  intro s
  induction s with
  | nil => intro t locals store; rfl
  | cons p rest ih =>
    intro t locals store
    obtain ⟨g, ph⟩ := p
    cases ph with
    | read => rw [List.cons_append, execFull, execFull, ih]
    | insert =>
      rw [List.cons_append, execFull, execFull]
      cases locals.lookup g <;> dsimp only <;> rw [ih]

/-- Serialized execution appends `store.length + k + 1` at the k-th
generation. -/
theorem execFull_serial :
    ∀ (n : Nat) (locals : List (Nat × Nat)) (store : List Nat),
      (execFull (serialSched n) locals store).2
        = store ++ (List.range n).map (fun k => store.length + k + 1) := by
  intro n
  induction n with
  | zero => intro locals store; simp [serialSched, execFull]
  | succ n ih =>
    intro locals store
    rw [serialSched, execFull_append]
    rw [show (execFull [(n, GenPhase.read), (n, GenPhase.insert)]
        (execFull (serialSched n) locals store).1
        (execFull (serialSched n) locals store).2).2
      = (execFull (serialSched n) locals store).2
          ++ [(execFull (serialSched n) locals store).2.length + 1] by
        rw [execFull, execFull]
        simp [List.lookup, execFull]]
    rw [ih]
    rw [List.range_succ]
    simp [List.append_assoc]

/-- C2 (amended): when the generations for a campaign are serialized (each
invocation's count-read immediately followed by its insert, no
interleaving), N successful generations persist exactly the variation
numbers 1..N — the first is 1, the sequence is strictly increasing with no
repeats and no gaps, and each insert's number is 1 + the row count at its
read.  The claim's racing guarantee fails on the code: see the
counterexample, where two interleaved generations both persist number
1. -/
theorem serial_generation_numbers (n : Nat) :
    execSched (serialSched n) [] [] = (List.range n).map (fun k => k + 1)
  ∧ List.Pairwise (· < ·) (execSched (serialSched n) [] []) := by
  have he : execSched (serialSched n) [] [] = (List.range n).map (fun k => k + 1) := by
    rw [execSched, execFull_serial]
    simp
  refine ⟨he, ?_⟩
  rw [he]
  exact (List.pairwise_lt_range n).map _ (fun a b hab => by omega)

/-- Counterexample to C2 as stated: two racing generations for the same
campaign both read count 0 and both insert variation number 1.  The
persisted sequence is `[1, 1]` — a repeat, not strictly increasing — and
the second row's number (1) differs from 1 + the count existing at its
creation (2).  Nothing in the code or schema (no per-campaign mutex, no
uniqueness constraint on `(campaign_id, variation_number)`) prevents
this interleaving. -/
theorem racing_generations_duplicate_numbers :
    execSched [(0, .read), (1, .read), (0, .insert), (1, .insert)] [] [] = [1, 1]
  ∧ ¬ List.Pairwise (· < ·) ([1, 1] : List Nat) :=
  ⟨by decide, by decide⟩

/-! ## The backoff retrier (`dbRetry.ts`) -/

/-- A JavaScript error as `isRetryableError` inspects it: `code`, `errno`,
and `message` (an empty list models a falsy/absent field). -/
structure JsError where
  code : Str
  errno : Str
  message : Str
deriving DecidableEq, Repr

/-- The transient error codes of `dbRetry.ts`. -/
def RETRYABLE_ERROR_CODES : List Str :=
  [str "ETIMEDOUT", str "ECONNREFUSED", str "ENOTFOUND", str "EHOSTUNREACH",
   str "EAI_AGAIN", str "ECONNRESET", str "57P01", str "57P03",
   str "08006", str "08003", str "08000"]

/-- `message.toLowerCase()` (the checked signatures are ASCII). -/
def toLower (s : Str) : Str := s.map Char.toLower

/-- `haystack.includes(needle)`. -/
def containsSub (hay needle : Str) : Bool := decide (needle <:+: hay)

/-- `isRetryableError`: a known transient code (`error.code || error.errno`
with falsy fallback), or a lowercased message mentioning
timeout/connection/network. -/
def isRetryableError (e : JsError) : Bool :=
  let errorCode := if e.code ≠ [] then e.code else e.errno
  if RETRYABLE_ERROR_CODES.contains errorCode then true
  else
    containsSub (toLower e.message) (str "timeout")
    || containsSub (toLower e.message) (str "connection")
    || containsSub (toLower e.message) (str "network")

/-- The options of `withRetry`, with the source's defaults. -/
structure RetryOptions where
  maxAttempts : Nat := 3
  initialDelay : Nat := 100
  maxDelay : Nat := 5000
  backoffMultiplier : Nat := 2
deriving DecidableEq, Repr

/-- The source's default options. -/
def defaultRetryOptions : RetryOptions := ⟨3, 100, 5000, 2⟩

deriving instance DecidableEq for Except

/-- Observable outcome of a `withRetry` call: the returned value or thrown
error (`Except.error none` is the degenerate `throw lastError` after a
zero-iteration loop), the number of invocations of `operation`, and the
sleeps performed between attempts. -/
structure RetryTrace (α : Type) where
  result : Except (Option JsError) α
  attemptsMade : Nat
  sleeps : List Nat
deriving DecidableEq, Repr

/-- The attempt loop of `withRetry`: try the operation; on success return;
on error rethrow when this was the final attempt or the error is not
retryable, otherwise sleep the current delay and continue with
`delay = min(delay * backoffMultiplier, maxDelay)`. -/
def retryGo {α : Type} (op : Nat → Except JsError α) (o : RetryOptions) :
    Nat → Nat → Option JsError → List Nat → RetryTrace α
  | attempt, delay, last, sleeps =>
    if h1 : attempt > o.maxAttempts then ⟨.error last, attempt - 1, sleeps⟩
    else
      match op attempt with
      | .ok a => ⟨.ok a, attempt, sleeps⟩
      | .error e =>
        if h2 : attempt = o.maxAttempts ∨ isRetryableError e = false then
          ⟨.error (some e), attempt, sleeps⟩
        else
          retryGo op o (attempt + 1)
            (min (delay * o.backoffMultiplier) o.maxDelay)
            (some e) (sleeps ++ [delay])
termination_by attempt _ _ _ => o.maxAttempts + 1 - attempt
decreasing_by
  simp only [not_or] at *
  omega

/-- `withRetry(operation, options)`, as a function of the operation's
per-attempt outcomes. -/
def withRetry {α : Type} (op : Nat → Except JsError α) (o : RetryOptions) :
    RetryTrace α :=
  retryGo op o 1 o.initialDelay none []

/-- Capping commutes with the geometric step when the multiplier is at
least 1. -/
theorem min_mul_cap (a M m : Nat) (hm : 1 ≤ m) :
    min (min a M * m) M = min (a * m) M := by
  rcases Nat.le_total a M with h | h
  · rw [Nat.min_eq_left h]
  · have ham : a ≤ a * m := by
      calc a = a * 1 := (Nat.mul_one a).symm
        _ ≤ a * m := Nat.mul_le_mul_left a hm
    have hMm : M ≤ M * m := by
      calc M = M * 1 := (Nat.mul_one M).symm
        _ ≤ M * m := Nat.mul_le_mul_left M hm
    rw [Nat.min_eq_right h, Nat.min_eq_right hMm,
      Nat.min_eq_right (le_trans h ham)]

/-- Invariant of the attempt loop: every sleep performed so far, and the
current delay, follow the capped geometric schedule. -/
theorem retryGo_sleeps {α : Type} (op : Nat → Except JsError α) (o : RetryOptions)
    (hm : 1 ≤ o.backoffMultiplier) (hinit : o.initialDelay ≤ o.maxDelay) :
    ∀ (fuel attempt delay : Nat) (last : Option JsError) (sleeps : List Nat),
      o.maxAttempts + 1 - attempt = fuel →
      delay = min (o.initialDelay * o.backoffMultiplier ^ sleeps.length) o.maxDelay →
      (∀ k, k < sleeps.length → sleeps[k]? =
        some (min (o.initialDelay * o.backoffMultiplier ^ k) o.maxDelay)) →
      ∀ k, k < (retryGo op o attempt delay last sleeps).sleeps.length →
        (retryGo op o attempt delay last sleeps).sleeps[k]? =
          some (min (o.initialDelay * o.backoffMultiplier ^ k) o.maxDelay) := by
  intro fuel
  induction fuel with
  | zero =>
    intro attempt delay last sleeps hfuel hdelay hinv k hk
    rw [retryGo, dif_pos (by omega)] at hk ⊢
    exact hinv k hk
  | succ fuel ih =>
    intro attempt delay last sleeps hfuel hdelay hinv k hk
    rw [retryGo, dif_neg (by omega)] at hk ⊢
    cases hop : op attempt with
    | ok a =>
      rw [hop] at hk
      dsimp only at hk ⊢
      exact hinv k hk
    | error e =>
      rw [hop] at hk
      dsimp only at hk ⊢
      by_cases h2 : attempt = o.maxAttempts ∨ isRetryableError e = false
      · rw [dif_pos h2] at hk ⊢
        exact hinv k hk
      · rw [dif_neg h2] at hk ⊢
        refine ih (attempt + 1) _ (some e) (sleeps ++ [delay]) (by omega) ?_ ?_ k hk
        · rw [List.length_append, List.length_cons, List.length_nil, hdelay,
            min_mul_cap _ _ _ hm, pow_succ, ← Nat.mul_assoc]
        · intro j hj
          rw [List.length_append, List.length_cons, List.length_nil] at hj
          by_cases hjl : j < sleeps.length
          · rw [List.getElem?_append, if_pos hjl]
            exact hinv j hjl
          · have hje : j = sleeps.length := by omega
            subst hje
            rw [List.getElem?_append, if_neg (by omega), Nat.sub_self]
            simp [hdelay]

/-- C6: with the default options (`maxAttempts = 3`): an operation failing
twice with retryable (e.g. timeout-classified) errors and succeeding on the
third attempt is invoked exactly 3 times and its success result is
returned, after sleeps of 100 ms and 200 ms; an operation failing with a
non-retryable error is invoked exactly once and that error propagates; an
error on the final attempt propagates after exactly 3 invocations; and in
general (for any options with multiplier ≥ 1 and `initialDelay ≤
maxDelay`, as the defaults are) the delay before retry `k+1` equals
`min(initialDelay * multiplier^k, maxDelay)`. -/
theorem withRetry_policy :
    (∀ (op : Nat → Except JsError Nat) (e1 e2 : JsError) (a : Nat),
      op 1 = .error e1 → op 2 = .error e2 → op 3 = .ok a →
      isRetryableError e1 = true → isRetryableError e2 = true →
      withRetry op defaultRetryOptions = ⟨.ok a, 3, [100, 200]⟩)
  ∧ (∀ (op : Nat → Except JsError Nat) (e : JsError),
      op 1 = .error e → isRetryableError e = false →
      withRetry op defaultRetryOptions = ⟨.error (some e), 1, []⟩)
  ∧ (∀ (op : Nat → Except JsError Nat) (e1 e2 e3 : JsError),
      op 1 = .error e1 → op 2 = .error e2 → op 3 = .error e3 →
      isRetryableError e1 = true → isRetryableError e2 = true →
      withRetry op defaultRetryOptions = ⟨.error (some e3), 3, [100, 200]⟩)
  ∧ (∀ (op : Nat → Except JsError Nat) (o : RetryOptions),
      1 ≤ o.backoffMultiplier → o.initialDelay ≤ o.maxDelay →
      ∀ k, k < (withRetry op o).sleeps.length →
        (withRetry op o).sleeps[k]? =
          some (min (o.initialDelay * o.backoffMultiplier ^ k) o.maxDelay)) := by
  refine ⟨?_, ?_, ?_, ?_⟩
  · intro op e1 e2 a h1 h2 h3 hr1 hr2
    rw [withRetry, retryGo, dif_neg (by decide), h1]
    dsimp only
    rw [dif_neg (by simp [defaultRetryOptions, hr1])]
    rw [retryGo, dif_neg (by decide), h2]
    dsimp only
    rw [dif_neg (by simp [defaultRetryOptions, hr2])]
    rw [retryGo, dif_neg (by decide), h3]
    simp [defaultRetryOptions]
  · intro op e h1 hr1
    rw [withRetry, retryGo, dif_neg (by decide), h1]
    dsimp only
    rw [dif_pos (Or.inr hr1)]
  · intro op e1 e2 e3 h1 h2 h3 hr1 hr2
    rw [withRetry, retryGo, dif_neg (by decide), h1]
    dsimp only
    rw [dif_neg (by simp [defaultRetryOptions, hr1])]
    rw [retryGo, dif_neg (by decide), h2]
    dsimp only
    rw [dif_neg (by simp [defaultRetryOptions, hr2])]
    rw [retryGo, dif_neg (by decide), h3]
    dsimp only
    rw [dif_pos (Or.inl (by decide))]
    simp [defaultRetryOptions]
  · intro op o hm hinit k hk
    refine retryGo_sleeps op o hm hinit o.maxAttempts 1 o.initialDelay none []
      (by omega) ?_ (by intro j hj; simp at hj) k hk
    rw [List.length_nil, pow_zero, Nat.mul_one, Nat.min_eq_left hinit]

/-- A timeout-classified (retryable) error. -/
def timeoutErr : JsError := ⟨str "ETIMEDOUT", [], str "connect timeout"⟩

/-- A non-retryable error. -/
def authErr : JsError := ⟨[], [], str "password authentication failed"⟩

/-- An operation failing with timeouts on attempts 1 and 2 and succeeding
on attempt 3. -/
def opFlaky : Nat → Except JsError Nat := fun k => if k < 3 then .error timeoutErr else .ok 7

/-- An operation always failing with a non-retryable error. -/
def opFatal : Nat → Except JsError Nat := fun _ => .error authErr

/-- Witness for C6: the flaky operation is invoked 3 times and returns 7
after sleeps [100, 200]; the fatally-failing operation is invoked once and
its error propagates. -/
theorem withRetry_policy_witness :
    withRetry opFlaky defaultRetryOptions = ⟨.ok 7, 3, [100, 200]⟩
  ∧ withRetry opFatal defaultRetryOptions = ⟨.error (some authErr), 1, []⟩ :=
  ⟨withRetry_policy.1 opFlaky timeoutErr timeoutErr 7
      (by decide) (by decide) (by decide) (by decide) (by decide),
    withRetry_policy.2.1 opFatal authErr (by decide) (by decide)⟩

end WAPersist
